import Mathlib

set_option linter.unusedVariables false

/-!
Shallow embedding of `feature_engine`'s `JenksDiscretiser`
(`src/feature_engine/discretisation/jenks.py`) together with the collaborators
its `fit`/`transform` contract relies on.  Numeric cell values are embedded as
exact rationals (`ℚ`); missing values (`NaN`) as `Option.none`.  Python's
dynamically typed constructor arguments are embedded as `PyVal`; raised
exceptions as `PyErr` values returned through `Except`/`Option`.
-/

namespace FeatureEngine

/-- A Python runtime value, as far as the constructor argument checks can
distinguish them: booleans, integers, and everything else (floats, strings,
tuples, dicts, ...) carrying only its type tag and its `repr` text. -/
inductive PyVal where
  | bool (b : Bool)
  | int (n : Int)
  | other (kind : String) (txt : String)
  deriving DecidableEq

/-- Python `repr` of a `PyVal`, used in error messages. -/
def pyRepr : PyVal → String
  | .bool true => "True"
  | .bool false => "False"
  | .int n => toString n
  | .other _ txt => txt

/-- Python `isinstance(v, bool)`. -/
def isinstance_bool : PyVal → Bool
  | .bool _ => true
  | _ => false

/-- Python `isinstance(v, int)`: `bool` is a subclass of `int`, so booleans
also satisfy this check. -/
def isinstance_int : PyVal → Bool
  | .bool _ => true
  | .int _ => true
  | _ => false

/-- Integer value of a `PyVal` in an arithmetic context (`True == 1`,
`False == 0`); only meaningful behind an `isinstance_int` guard. -/
def intVal : PyVal → Int
  | .bool b => if b then 1 else 0
  | .int n => n
  | .other _ _ => 0

/-- Python truthiness of a `PyVal`. -/
def pyTruthy : PyVal → Bool
  | .bool b => b
  | .int n => n != 0
  | .other _ _ => true

/-- The kinds of exception the embedded code distinguishes. -/
inductive ErrKind where
  | valueError
  | notFittedError
  | keyError
  deriving DecidableEq

/-- A raised Python exception: its kind and its message. -/
structure PyErr where
  kind : ErrKind
  msg : String
  deriving DecidableEq

/-- A pandas dataframe restricted to what this transformer reads: named
columns of numeric cells, `none` standing for a missing value (`NaN`). -/
structure DataFrame where
  cols : List (String × List (Option ℚ))
  deriving DecidableEq

/-- Column lookup (`X[name]`). -/
def DataFrame.getCol (X : DataFrame) (f : String) : Option (List (Option ℚ)) :=
  (X.cols.find? (fun p => p.1 == f)).map (·.2)

/-- The column names of the dataframe, in order. -/
def DataFrame.names (X : DataFrame) : List String :=
  X.cols.map (·.1)

/-- Whether any of the given columns contains a missing value. -/
def DataFrame.containsNA (X : DataFrame) (vars : List String) : Bool :=
  vars.any (fun f => ((X.getCol f).getD []).any (fun c => c.isNone))

/-- The non-missing values of a column (at fit/transform time the NA check has
already ruled missing values out, so this is the whole column). -/
def colValues (X : DataFrame) (f : String) : List ℚ :=
  ((X.getCol f).getD []).reduceOption

/-! ### Exact fraction arithmetic for Jenks costs

Costs of candidate classifications are compared exactly, as unreduced integer
fractions `(numerator, denominator)` with positive denominators, so that the
whole computation stays in kernel-reducible integer arithmetic. -/

/-- Sum of two fractions, without reduction. -/
def fracAdd (p q : Int × Int) : Int × Int :=
  (p.1 * q.2 + q.1 * p.2, p.2 * q.2)

/-- Difference of two fractions, without reduction. -/
def fracSub (p q : Int × Int) : Int × Int :=
  (p.1 * q.2 - q.1 * p.2, p.2 * q.2)

/-- Product of two fractions, without reduction. -/
def fracMul (p q : Int × Int) : Int × Int :=
  (p.1 * q.1, p.2 * q.2)

/-- A rational number as an integer fraction. -/
def qfrac (q : ℚ) : Int × Int :=
  (q.num, (q.den : Int))

/-- Strict comparison of fractions with positive denominators. -/
def fracLt (p q : Int × Int) : Bool :=
  p.1 * q.2 < q.1 * p.2

/-- Sum of squared deviations from the mean of one class, as a fraction:
`s2 - s1^2 / w` where `s1`, `s2` are the sums of the values and of their
squares and `w` the class size. -/
def classCost (cls : List ℚ) : Int × Int :=
  let s1 := cls.foldl (fun a q => fracAdd a (qfrac q)) (0, 1)
  let s2 := cls.foldl (fun a q => fracAdd a (fracMul (qfrac q) (qfrac q))) (0, 1)
  let w : Int := cls.length
  fracSub s2 (s1.1 * s1.1, s1.2 * s1.2 * w)

/-- Split a list into consecutive classes of the given sizes. -/
def splitBySizes : List ℚ → List Nat → List (List ℚ)
  | _, [] => []
  | xs, w :: ws => xs.take w :: splitBySizes (xs.drop w) ws

/-- Total within-class sum of squared deviations of one candidate
classification, given by its class sizes. -/
def costOf (sorted : List ℚ) (c : List Nat) : Int × Int :=
  (splitBySizes sorted c).foldl (fun a cl => fracAdd a (classCost cl)) (0, 1)

/-- All ways to split `n` ordered items into `k` consecutive nonempty
classes, as lists of `k` positive class sizes summing to `n`. -/
def compositions : Nat → Nat → List (List Nat)
  | n, 0 => if n = 0 then [[]] else []
  | n, k + 1 =>
    (List.range n).flatMap (fun i => (compositions (n - (i + 1)) k).map (fun c => (i + 1) :: c))

/-- First element of the list minimising `f` (ties keep the earlier
candidate); `none` on the empty list. -/
def pickMinBy (f : α → Int × Int) : List α → Option α
  | [] => none
  | x :: xs =>
    match pickMinBy f xs with
    | none => some x
    | some y => if fracLt (f y) (f x) then some y else some x

/-- Running totals of a list of class sizes, starting from `a`. -/
def prefixSums : Nat → List Nat → List Nat
  | _, [] => []
  | a, w :: ws => (a + w) :: prefixSums (a + w) ws

/-- The breakpoints of a classification of `sorted` with class sizes `c`:
the smallest value followed by the last value of each class. -/
def breaksOf (sorted : List ℚ) (c : List Nat) : List ℚ :=
  sorted.headD 0 :: (prefixSums 0 c).map (fun p => sorted.getD (p - 1) 0)

/-- Modelled from the spec: the external Breakpoint Classifier (jenkspy's
`jenks_breaks`, invoked through `JenksNaturalBreaks.fit`), whose source is not
part of this repository.  Per the spec and the class docstring, given numeric
values and a class count `k` it returns `k + 1` ordered breakpoints spanning
the observed value range, chosen to minimise the sum of squared deviations
from the class means, and it fails when the number of distinct values is
smaller than `k` (or `k` is not a positive count). -/
def jenks_breaks (values : List ℚ) (k : Nat) : Except PyErr (List ℚ) :=
  if k = 0 ∨ values.dedup.length < k then
    .error ⟨.valueError, "The number of unique values is smaller than the number of classes."⟩
  else
    let sorted := List.insertionSort (· ≤ ·) values
    match pickMinBy (costOf sorted) (compositions sorted.length k) with
    | none => .error ⟨.valueError, "The number of values is smaller than the number of classes."⟩
    | some c => .ok (breaksOf sorted c)

/-! ### The transformer -/

/-- The `JenksDiscretiser` object: the five constructor parameters exactly as
passed (Python stores the argument objects themselves, hence `PyVal`), plus
the fitted attributes `variables_` and `binner_dict_`, which are absent
(`none`) until a `fit` call assigns them. -/
structure JenksDiscretiser where
  bins : PyVal
  /-- The constructor's `variables` argument (`variables` is reserved in
  Lean 4, hence the changed name). -/
  variablesParam : Option (List String)
  return_object : PyVal
  return_boundaries : PyVal
  precision : PyVal
  variables_ : Option (List String)
  binner_dict_ : Option (List (String × List ℚ))
  deriving DecidableEq

namespace JenksDiscretiser

/-- `JenksDiscretiser.__init__`: validates `return_object`,
`return_boundaries`, `precision` and `bins` in that order, raising
`ValueError` at the first offending argument, then stores the arguments.
The `variables` argument is passed through the shared normaliser
(`_check_init_parameter_variables`, outside this repository), embedded here
as an already-normalised optional list of column names. -/
def init (bins : PyVal) (variablesParam : Option (List String))
    (return_object return_boundaries precision : PyVal) :
    Except PyErr JenksDiscretiser :=
  if ¬ isinstance_bool return_object then
    .error ⟨.valueError,
      "return_object must be True or False. Got " ++ pyRepr return_object ++ " instead."⟩
  else if ¬ isinstance_bool return_boundaries then
    .error ⟨.valueError,
      "return_boundaries must be True or False. Got " ++ pyRepr return_boundaries ++ " instead."⟩
  else if ¬ isinstance_int precision ∨ intVal precision < 1 then
    .error ⟨.valueError,
      "precision must be a positive integer. Got " ++ pyRepr precision ++ " instead."⟩
  else if ¬ isinstance_int bins ∨ intVal bins < 1 then
    .error ⟨.valueError,
      "bins must be a positive integer. Got " ++ pyRepr bins ++ " instead."⟩
  else
    .ok ⟨bins, variablesParam, return_object, return_boundaries, precision, none, none⟩

/-- Modelled from the spec: the Column Selector collaborator
(`find_or_check_numerical_variables`, outside this repository), as called from
the base transformer's `fit`: with no explicit selection every (numeric)
column of the dataframe is selected in order; an explicit selection is
validated against the dataframe's columns. -/
def resolveVariables (sel : Option (List String)) (X : DataFrame) :
    Except PyErr (List String) :=
  match sel with
  | none => .ok X.names
  | some l =>
    if l.all (fun f => (X.getCol f).isSome) then .ok l
    else .error ⟨.keyError, "Some of the variables are not in the dataframe."⟩

/-- The per-column loop in `JenksDiscretiser.fit`: for each selected column
run the breakpoint classifier and insert its breakpoints into `binner_dict_`.
A failing column stops the loop, keeping the entries inserted so far. -/
def fitLoop (k : Nat) (X : DataFrame) :
    List String → List (String × List ℚ) → List (String × List ℚ) × Option PyErr
  | [], acc => (acc, none)
  | f :: fs, acc =>
    match jenks_breaks (colValues X f) k with
    | .error e => (acc, some e)
    | .ok bs => fitLoop k X fs (acc ++ [(f, bs)])

/-- `JenksDiscretiser.fit`, with the base-class part (`super().fit(X)`,
outside this repository) modelled from the spec: resolve the working columns,
fail with a data-quality `ValueError` if any selected column contains missing
values, record `variables_`, then run the per-column loop of the source,
which first assigns `binner_dict_` and then fills it column by column.
The target `y` is accepted and never used.  The returned pair is the
transformer as mutated by the call and the raised exception, if any. -/
def fit (t : JenksDiscretiser) (X : DataFrame) (y : Option (List ℚ)) :
    JenksDiscretiser × Option PyErr :=
  match resolveVariables t.variablesParam X with
  | .error e => (t, some e)
  | .ok vars =>
    let t1 := { t with variables_ := some vars }
    if X.containsNA vars then
      (t1, some ⟨.valueError,
        "Some of the variables in the dataset contain NaN. Check and remove those before using this transformer."⟩)
    else
      let r := fitLoop (intVal t.bins).toNat X vars []
      ({ t1 with binner_dict_ := some r.1 }, r.2)

/-- Zero-based bin index of a value: the half-open interval of the stored
breakpoints it falls in, with the leftmost interval extended to catch values
at or below the minimum and the rightmost to catch values at or above the
maximum. -/
def binIndex (breaks : List ℚ) (v : ℚ) : Nat :=
  ((breaks.drop 1).dropLast).countP (fun b => decide (b < v))

/-- A cell of a transformed dataframe: an untouched numeric value, a missing
value, a zero-based bin code, or an interval label with its boundary values
and the decimal precision used to print them. -/
inductive PyCell where
  | num (q : ℚ)
  | na
  | code (n : Nat)
  | interval (lo hi : ℚ) (p : Nat)
  deriving DecidableEq

/-- A column of a transformed dataframe: its name, whether its dtype was
forced to `object`, and its cells. -/
structure OutCol where
  name : String
  objectDtype : Bool
  cells : List PyCell
  deriving DecidableEq

/-- A transformed dataframe. -/
structure OutFrame where
  cols : List OutCol
  deriving DecidableEq

/-- First selected column missing from the fitted `binner_dict_`, if any
(a partial `binner_dict_` makes the transform loop fail with a `KeyError`). -/
def firstMissingKey (bd : List (String × List ℚ)) : List String → Option String
  | [] => none
  | f :: fs =>
    if (bd.find? (fun p => p.1 == f)).isSome then firstMissingKey bd fs else some f

/-- Breakpoints stored for a column (defined lookup once `firstMissingKey`
found none missing). -/
def lookupBreaks (bd : List (String × List ℚ)) (f : String) : List ℚ :=
  ((bd.find? (fun p => p.1 == f)).map (·.2)).getD []

/-- One transformed cell of a selected column: by default the bin code; with
`return_boundaries` the interval label made of the two surrounding
breakpoints (their printing precision recorded alongside). -/
def mapCell (boundaries : Bool) (prec : Nat) (breaks : List ℚ) :
    Option ℚ → PyCell
  | none => .na
  | some v =>
    let i := binIndex breaks v
    if boundaries then .interval (breaks.getD i 0) (breaks.getD (i + 1) 0) prec
    else .code i

/-- Modelled from the spec: `BaseDiscretiser.transform` (outside this
repository), which `JenksDiscretiser` inherits unchanged: require the fitted
attributes, check the input schema and missing values, then bucket every
selected column through the stored breakpoints, leaving other columns
untouched; with `return_object` the produced columns are cast to `object`
dtype.  The transformer itself is returned unchanged: transform assigns no
attribute. -/
def transform (t : JenksDiscretiser) (X : DataFrame) :
    JenksDiscretiser × Except PyErr OutFrame :=
  (t,
    match t.binner_dict_, t.variables_ with
    | some bd, some vs =>
      if ¬ vs.all (fun f => (X.getCol f).isSome) then
        .error ⟨.valueError, "Some of the variables are not present in the dataframe."⟩
      else if X.containsNA vs then
        .error ⟨.valueError,
          "Some of the variables in the dataset contain NaN. Check and remove those before using this transformer."⟩
      else
        match firstMissingKey bd vs with
        | some f => .error ⟨.keyError, f⟩
        | none =>
          .ok ⟨X.cols.map (fun p =>
            if vs.contains p.1 then
              ⟨p.1, pyTruthy t.return_object,
                p.2.map (mapCell (pyTruthy t.return_boundaries)
                  (intVal t.precision).toNat (lookupBreaks bd p.1))⟩
            else ⟨p.1, false, p.2.map (fun c => match c with
              | some v => PyCell.num v
              | none => PyCell.na)⟩)⟩
    | _, _ =>
      .error ⟨.notFittedError,
        "This JenksDiscretiser instance is not fitted yet. Call fit with appropriate arguments before using this estimator."⟩)

end JenksDiscretiser

/-! ### Concrete inputs used by the witnesses and counterexamples -/

/-- The dataframe of the end-to-end test: one column `var = [0..11]`. -/
def dfVar : DataFrame :=
  ⟨[("var", [some 0, some 1, some 2, some 3, some 4, some 5, some 6, some 7,
             some 8, some 9, some 10, some 11])]⟩

/-- Two columns: `a` has four distinct values, `b` a single repeated value,
so fitting with two bins succeeds on `a` and fails on `b`. -/
def dfAB : DataFrame :=
  ⟨[("a", [some 1, some 2, some 3, some 4]),
    ("b", [some 5, some 5, some 5, some 5])]⟩

/-- One column with three distinct values, each appearing twice. -/
def dfTie : DataFrame :=
  ⟨[("a", [some 1, some 1, some 2, some 2, some 3, some 3])]⟩

/-- One column containing a missing value. -/
def dfNA : DataFrame :=
  ⟨[("a", [some 1, none, some 3])]⟩

/-- A freshly constructed transformer with `bins=4` and default arguments. -/
def tBins4 : JenksDiscretiser :=
  ⟨.int 4, none, .bool false, .bool false, .int 3, none, none⟩

/-- A freshly constructed transformer with `bins=2` and
`variables=["a", "b"]`. -/
def tBins2AB : JenksDiscretiser :=
  ⟨.int 2, some ["a", "b"], .bool false, .bool false, .int 3, none, none⟩

/-- A freshly constructed transformer with `bins=3`. -/
def tBins3 : JenksDiscretiser :=
  ⟨.int 3, none, .bool false, .bool false, .int 3, none, none⟩

set_option maxRecDepth 1000000

/-- A transformer whose fitted attributes were set by hand, used to exercise
`transform` on data with missing values. -/
def tFitted : JenksDiscretiser :=
  ⟨.int 2, none, .bool false, .bool false, .int 3, some ["a"], some [("a", [1, 2, 3])]⟩

/-! ### Helper lemmas -/

/-- A successful construction leaves both fitted attributes absent. -/
theorem init_ok_unfitted {b v ro rb p t}
    (h : JenksDiscretiser.init b v ro rb p = .ok t) :
    t.binner_dict_ = none ∧ t.variables_ = none := by
  unfold JenksDiscretiser.init at h
  repeat' split at h
  all_goals simp_all
  exact ⟨congrArg JenksDiscretiser.binner_dict_ h.symm,
    congrArg JenksDiscretiser.variables_ h.symm⟩

/-- Every failure of the breakpoint classifier is a `ValueError`. -/
theorem jenks_breaks_error_kind {values : List ℚ} {k : Nat} {e : PyErr}
    (h : jenks_breaks values k = .error e) : e.kind = .valueError := by
  unfold jenks_breaks at h
  split at h
  · cases h; rfl
  · dsimp only at h
    split at h
    · cases h; rfl
    · cases h

/-- If some column of the remaining work list fails the breakpoint
classifier, the fit loop raises, and the raised error is a `ValueError`. -/
theorem fitLoop_err (k : Nat) (X : DataFrame) :
    ∀ (fs : List String) (acc : List (String × List ℚ)) (f : String), f ∈ fs →
      (jenks_breaks (colValues X f) k).isOk = false →
      ∃ e, (JenksDiscretiser.fitLoop k X fs acc).2 = some e ∧ e.kind = .valueError := by
  intro fs
  induction fs with
  | nil => intro acc f hf; cases hf
  | cons f0 fs ih =>
    intro acc f hf hbad
    cases hjb : jenks_breaks (colValues X f0) k with
    | error e =>
      exact ⟨e, by simp [JenksDiscretiser.fitLoop, hjb], jenks_breaks_error_kind hjb⟩
    | ok bs =>
      rcases List.mem_cons.mp hf with hEq | hMem
      · subst hEq; rw [hjb] at hbad; cases hbad
      · have := ih (acc ++ [(f0, bs)]) f hMem hbad
        simpa [JenksDiscretiser.fitLoop, hjb] using this

/-! ### Claims -/

/-- C1 (counterexample): on `dfAB` with `bins=2` and `variables=["a","b"]`,
fitting fails (column `b` has a single distinct value), yet the breakpoints
of column `a` have been committed to `binner_dict_`: partial application of
bins is possible, contrary to the claim. -/
theorem C1_counterexample :
    JenksDiscretiser.init (.int 2) (some ["a", "b"]) (.bool false) (.bool false) (.int 3) =
        .ok tBins2AB ∧
    ((tBins2AB.fit dfAB none).2).isSome = true ∧
    (tBins2AB.fit dfAB none).1.binner_dict_ = some [("a", [1, 2, 4])] :=
  ⟨rfl, rfl, rfl⟩

/-- C1 (amended): if the NA check passes and Jenks classification fails on
any selected column, the whole `fit` call fails with a data-quality
`ValueError` — but breakpoints of columns processed before the failing one
remain committed to `binner_dict_`. -/
theorem C1_fit_failure_propagates (t : JenksDiscretiser) (X : DataFrame)
    (y : Option (List ℚ)) (vars : List String) (f : String)
    (h1 : JenksDiscretiser.resolveVariables t.variablesParam X = .ok vars)
    (h2 : X.containsNA vars = false)
    (h3 : f ∈ vars)
    (h4 : (jenks_breaks (colValues X f) (intVal t.bins).toNat).isOk = false) :
    ∃ e, (t.fit X y).2 = some e ∧ e.kind = .valueError := by
  have h := fitLoop_err (intVal t.bins).toNat X vars [] f h3 h4
  simpa [JenksDiscretiser.fit, h1, h2] using h

/-- C1 (witness): the amended theorem applied to `dfAB`, whose column `b`
fails classification with two bins. -/
theorem C1_fit_failure_propagates_witness :
    ∃ e, (tBins2AB.fit dfAB none).2 = some e ∧ e.kind = .valueError :=
  C1_fit_failure_propagates tBins2AB dfAB none ["a", "b"] "b" rfl rfl
    (by decide) rfl

/-- C2: fitting `var = [0..11]` with `bins=4` and `variables=None` yields
breakpoints `[0, 2, 5, 8, 11]`, `variables_ == ["var"]`, and transforming
yields the bin codes `[0,0,0,1,1,1,2,2,2,3,3,3]`. -/
theorem C2_fit_transform_end_to_end :
    JenksDiscretiser.init (.int 4) none (.bool false) (.bool false) (.int 3) = .ok tBins4 ∧
    (tBins4.fit dfVar none).2 = none ∧
    (tBins4.fit dfVar none).1.variables_ = some ["var"] ∧
    (tBins4.fit dfVar none).1.binner_dict_ = some [("var", [0, 2, 5, 8, 11])] ∧
    ((tBins4.fit dfVar none).1.transform dfVar).2 =
      .ok ⟨[⟨"var", false,
        [.code 0, .code 0, .code 0, .code 1, .code 1, .code 1,
         .code 2, .code 2, .code 2, .code 3, .code 3, .code 3]⟩]⟩ :=
  ⟨rfl, rfl, rfl, rfl, rfl⟩

/-- C4: any invalid constructor argument — non-boolean `return_object` or
`return_boundaries`, non-integer or below-one `precision` or `bins` — makes
construction fail with a `ValueError`; the checks run in source order and
each error message identifies the offending value through its `repr`. -/
theorem C4_init_rejects_invalid_params (bins : PyVal) (vars : Option (List String))
    (ro rb prec : PyVal) :
    ((isinstance_bool ro = false ∨ isinstance_bool rb = false ∨
        isinstance_int prec = false ∨ intVal prec < 1 ∨
        isinstance_int bins = false ∨ intVal bins < 1) →
      ∃ e, JenksDiscretiser.init bins vars ro rb prec = .error e ∧ e.kind = .valueError) ∧
    (isinstance_bool ro = false →
      JenksDiscretiser.init bins vars ro rb prec = .error ⟨.valueError,
        "return_object must be True or False. Got " ++ pyRepr ro ++ " instead."⟩) ∧
    (isinstance_bool ro = true → isinstance_bool rb = false →
      JenksDiscretiser.init bins vars ro rb prec = .error ⟨.valueError,
        "return_boundaries must be True or False. Got " ++ pyRepr rb ++ " instead."⟩) ∧
    (isinstance_bool ro = true → isinstance_bool rb = true →
      (isinstance_int prec = false ∨ intVal prec < 1) →
      JenksDiscretiser.init bins vars ro rb prec = .error ⟨.valueError,
        "precision must be a positive integer. Got " ++ pyRepr prec ++ " instead."⟩) ∧
    (isinstance_bool ro = true → isinstance_bool rb = true →
      isinstance_int prec = true → ¬ intVal prec < 1 →
      (isinstance_int bins = false ∨ intVal bins < 1) →
      JenksDiscretiser.init bins vars ro rb prec = .error ⟨.valueError,
        "bins must be a positive integer. Got " ++ pyRepr bins ++ " instead."⟩) := by
  refine ⟨?_, ?_, ?_, ?_, ?_⟩
  · intro h
    unfold JenksDiscretiser.init
    repeat' split
    all_goals first
      | exact ⟨_, rfl, rfl⟩
      | (exfalso; simp_all; omega)
  · intro h; simp [JenksDiscretiser.init, h]
  · intro h1 h2; simp [JenksDiscretiser.init, h1, h2]
  · intro h1 h2 h3
    unfold JenksDiscretiser.init
    rw [if_neg (by simp [h1]), if_neg (by simp [h2]),
      if_pos (Or.imp (fun h => by simp [h]) id h3)]
  · intro h1 h2 h3 h4 h5
    unfold JenksDiscretiser.init
    rw [if_neg (by simp [h1]), if_neg (by simp [h2]),
      if_neg (by push_neg; exact ⟨by simp [h3], not_lt.mp h4⟩),
      if_pos (Or.imp (fun h => by simp [h]) id h5)]

/-- C4 (witness): the rejection theorem applied to the invalid arguments the
test suite uses — a float `return_object`, a string `return_boundaries`,
`precision=0` and a tuple `bins`. -/
theorem C4_init_rejects_invalid_params_witness :
    JenksDiscretiser.init (.int 10) none (.other "float" "0.1") (.bool false) (.int 3) =
      .error ⟨.valueError, "return_object must be True or False. Got 0.1 instead."⟩ ∧
    JenksDiscretiser.init (.int 10) none (.bool false) (.other "str" "hola") (.int 3) =
      .error ⟨.valueError, "return_boundaries must be True or False. Got hola instead."⟩ ∧
    JenksDiscretiser.init (.int 10) none (.bool false) (.bool false) (.int 0) =
      .error ⟨.valueError, "precision must be a positive integer. Got 0 instead."⟩ ∧
    JenksDiscretiser.init (.other "tuple" "(True, False)") none (.bool false) (.bool false)
        (.int 3) =
      .error ⟨.valueError, "bins must be a positive integer. Got (True, False) instead."⟩ :=
  ⟨(C4_init_rejects_invalid_params (.int 10) none (.other "float" "0.1") (.bool false)
      (.int 3)).2.1 rfl,
   (C4_init_rejects_invalid_params (.int 10) none (.bool false) (.other "str" "hola")
      (.int 3)).2.2.1 rfl rfl,
   (C4_init_rejects_invalid_params (.int 10) none (.bool false) (.bool false)
      (.int 0)).2.2.2.1 rfl rfl (Or.inr (by decide)),
   (C4_init_rejects_invalid_params (.other "tuple" "(True, False)") none (.bool false)
      (.bool false) (.int 3)).2.2.2.2 rfl rfl rfl (by decide) (Or.inl rfl)⟩

/-- C5: for boolean `return_object`/`return_boundaries` and integers
`bins ≥ 1`, `precision ≥ 1`, construction succeeds and the instance stores
exactly the given arguments, with the fitted attributes absent. -/
theorem C5_init_stores_valid_params (ro rb : Bool) (p b : Int)
    (vars : Option (List String)) (hp : 1 ≤ p) (hb : 1 ≤ b) :
    JenksDiscretiser.init (.int b) vars (.bool ro) (.bool rb) (.int p) =
      .ok ⟨.int b, vars, .bool ro, .bool rb, .int p, none, none⟩ := by
  unfold JenksDiscretiser.init
  rw [if_neg (by simp [isinstance_bool]), if_neg (by simp [isinstance_bool]),
    if_neg (by push_neg; exact ⟨by simp [isinstance_int], by simp [intVal]; omega⟩),
    if_neg (by push_neg; exact ⟨by simp [isinstance_int], by simp [intVal]; omega⟩)]

/-- C5 (witness): construction with the test suite's valid parameter
combinations. -/
theorem C5_init_stores_valid_params_witness :
    JenksDiscretiser.init (.int 10) none (.bool true) (.bool true) (.int 10) =
      .ok ⟨.int 10, none, .bool true, .bool true, .int 10, none, none⟩ ∧
    JenksDiscretiser.init (.int 1) (some ["a"]) (.bool false) (.bool false) (.int 1) =
      .ok ⟨.int 1, some ["a"], .bool false, .bool false, .int 1, none, none⟩ :=
  ⟨C5_init_stores_valid_params true true 10 10 none (by decide) (by decide),
   C5_init_stores_valid_params false false 1 1 (some ["a"]) (by decide) (by decide)⟩

/-- C6: a dataset with missing values in a selected column makes `fit` raise
a data-quality `ValueError`; and on a fitted transformer, missing values in a
column of `variables_` make `transform` raise a data-quality `ValueError` as
well. -/
theorem C6_missing_values_raise :
    (∀ (t : JenksDiscretiser) (X : DataFrame) (y : Option (List ℚ)) (vars : List String),
      JenksDiscretiser.resolveVariables t.variablesParam X = .ok vars →
      X.containsNA vars = true →
      ∃ m, (t.fit X y).2 = some ⟨.valueError, m⟩) ∧
    (∀ (t : JenksDiscretiser) (X : DataFrame) (bd : List (String × List ℚ))
        (vs : List String),
      t.binner_dict_ = some bd → t.variables_ = some vs →
      (vs.all fun f => (X.getCol f).isSome) = true →
      X.containsNA vs = true →
      ∃ m, (t.transform X).2 = .error ⟨.valueError, m⟩) := by
  constructor
  · intro t X y vars h1 h2
    exact ⟨"Some of the variables in the dataset contain NaN. Check and remove those before using this transformer.",
      by simp [JenksDiscretiser.fit, h1, h2]⟩
  · intro t X bd vs h1 h2 h3 h4
    exact ⟨"Some of the variables in the dataset contain NaN. Check and remove those before using this transformer.",
      by simp [JenksDiscretiser.transform, h1, h2, h3, h4]⟩

/-- C6 (witness): fitting `dfNA` with a fresh transformer, and transforming
`dfNA` with a hand-fitted transformer, both raise a `ValueError`. -/
theorem C6_missing_values_raise_witness :
    (∃ m, (tBins3.fit dfNA none).2 = some ⟨.valueError, m⟩) ∧
    (∃ m, (tFitted.transform dfNA).2 = .error ⟨.valueError, m⟩) :=
  ⟨C6_missing_values_raise.1 tBins3 dfNA none ["a"] rfl rfl,
   C6_missing_values_raise.2 tFitted dfNA [("a", [1, 2, 3])] ["a"] rfl rfl rfl rfl⟩

/-- C7 (counterexample): a freshly constructed transformer whose single
(failing) `fit` call never succeeded nevertheless does not raise the
not-fitted error on `transform`: the failed fit already committed fitted
attributes, so `transform` proceeds and fails with a `KeyError` on the column
whose breakpoints are missing. -/
theorem C7_counterexample :
    JenksDiscretiser.init (.int 2) (some ["a", "b"]) (.bool false) (.bool false) (.int 3) =
        .ok tBins2AB ∧
    ((tBins2AB.fit dfAB none).2).isSome = true ∧
    ((tBins2AB.fit dfAB none).1.transform dfAB).2 = .error ⟨.keyError, "b"⟩ ∧
    ErrKind.keyError ≠ ErrKind.notFittedError :=
  ⟨rfl, rfl, rfl, by decide⟩

/-- C7 (amended): every transformer straight out of the constructor — on
which no fit call, successful or failed, has set the fitted attributes —
raises the not-fitted error on `transform`, an error kind distinct from the
data-quality `ValueError`; after a failed fit that has already committed
fitted attributes this no longer holds. -/
theorem C7_not_fitted_transform (b : PyVal) (v : Option (List String))
    (ro rb p : PyVal) (t : JenksDiscretiser)
    (h : JenksDiscretiser.init b v ro rb p = .ok t) (X : DataFrame) :
    (t.transform X).2 = .error ⟨.notFittedError,
      "This JenksDiscretiser instance is not fitted yet. Call fit with appropriate arguments before using this estimator."⟩ ∧
    ErrKind.notFittedError ≠ ErrKind.valueError := by
  obtain ⟨h1, h2⟩ := init_ok_unfitted h
  exact ⟨by simp [JenksDiscretiser.transform, h1, h2], by decide⟩

/-- C7 (witness): the amended theorem applied to a freshly constructed
transformer. -/
theorem C7_not_fitted_transform_witness :
    (tBins4.transform dfVar).2 = .error ⟨.notFittedError,
      "This JenksDiscretiser instance is not fitted yet. Call fit with appropriate arguments before using this estimator."⟩ ∧
    ErrKind.notFittedError ≠ ErrKind.valueError :=
  C7_not_fitted_transform (.int 4) none (.bool false) (.bool false) (.int 3) tBins4 rfl dfVar

/-- C8: `transform` leaves the transformer's state — in particular
`binner_dict_` and `variables_` — unchanged, and calling it twice on the same
input produces the same output both times. -/
theorem C8_transform_idempotent (t : JenksDiscretiser) (X : DataFrame) :
    (t.transform X).1 = t ∧ ((t.transform X).1.transform X).2 = (t.transform X).2 :=
  ⟨rfl, rfl⟩

/-- C9: `fit` ignores the target argument `y`: any two targets produce
identical results, fitted state included. -/
theorem C9_fit_ignores_target (t : JenksDiscretiser) (X : DataFrame)
    (y1 y2 : Option (List ℚ)) :
    t.fit X y1 = t.fit X y2 :=
  rfl

/-- Every member of `compositions n k` has `k` parts, all positive, summing
to `n`. -/
theorem compositions_mem : ∀ (k n : Nat) (c : List Nat), c ∈ compositions n k →
    c.length = k ∧ c.sum = n ∧ ∀ w ∈ c, 1 ≤ w := by
  intro k
  induction k with
  | zero =>
    intro n c hc
    unfold compositions at hc
    split at hc
    · simp only [List.mem_singleton] at hc
      subst hc
      simp_all
    · cases hc
  | succ k ih =>
    intro n c hc
    unfold compositions at hc
    rw [List.mem_flatMap] at hc
    obtain ⟨i, hi, hc⟩ := hc
    rw [List.mem_map] at hc
    obtain ⟨c', hc', rfl⟩ := hc
    have hi' := List.mem_range.mp hi
    obtain ⟨hl, hs, hw⟩ := ih (n - (i + 1)) c' hc'
    refine ⟨by simp [hl], by simp [hs]; omega, ?_⟩
    intro w hw2
    rcases List.mem_cons.mp hw2 with rfl | hmem
    · omega
    · exact hw w hmem

/-- `pickMinBy` returns an element of its input list. -/
theorem pickMinBy_mem {α : Type} (f : α → Int × Int) :
    ∀ (l : List α) (x : α), pickMinBy f l = some x → x ∈ l := by
  intro l
  induction l with
  | nil => intro x h; cases h
  | cons a as ih =>
    intro x h
    unfold pickMinBy at h
    cases hm : pickMinBy f as with
    | none =>
      rw [hm] at h
      simp only [Option.some.injEq] at h
      subst h
      exact List.mem_cons_self a as
    | some y =>
      rw [hm] at h
      dsimp only at h
      by_cases hc : fracLt (f y) (f a) = true
      · rw [if_pos hc] at h
        simp only [Option.some.injEq] at h
        subst h
        exact List.mem_cons_of_mem _ (ih _ hm)
      · rw [if_neg hc] at h
        simp only [Option.some.injEq] at h
        subst h
        exact List.mem_cons_self a as

/-- `prefixSums` preserves length. -/
theorem prefixSums_length : ∀ (c : List Nat) (a : Nat),
    (prefixSums a c).length = c.length := by
  intro c
  induction c with
  | nil => intro a; rfl
  | cons w ws ih => intro a; simp [prefixSums, ih]

/-- Bounds on the running totals of positive class sizes. -/
theorem prefixSums_mem_bounds : ∀ (c : List Nat) (a : Nat), (∀ w ∈ c, 1 ≤ w) →
    ∀ p ∈ prefixSums a c, a + 1 ≤ p ∧ p ≤ a + c.sum := by
  intro c
  induction c with
  | nil => intro a _ p hp; cases hp
  | cons w ws ih =>
    intro a hw p hp
    simp only [prefixSums] at hp
    rcases List.mem_cons.mp hp with rfl | hmem
    · have h1 := hw w (List.mem_cons_self w ws)
      simp only [List.sum_cons]
      omega
    · have h2 := ih (a + w) (fun u hu => hw u (List.mem_cons_of_mem _ hu)) p hmem
      simp only [List.sum_cons]
      omega

/-- Running totals of positive class sizes are strictly increasing. -/
theorem prefixSums_pairwise_lt : ∀ (c : List Nat) (a : Nat), (∀ w ∈ c, 1 ≤ w) →
    (prefixSums a c).Pairwise (· < ·) := by
  intro c
  induction c with
  | nil => intro a _; exact List.Pairwise.nil
  | cons w ws ih =>
    intro a hw
    simp only [prefixSums]
    refine List.pairwise_cons.mpr
      ⟨?_, ih (a + w) (fun u hu => hw u (List.mem_cons_of_mem _ hu))⟩
    intro p hp
    have := (prefixSums_mem_bounds ws (a + w)
      (fun u hu => hw u (List.mem_cons_of_mem _ hu)) p hp).1
    omega

/-- The last running total is the total sum. -/
theorem prefixSums_getLast? : ∀ (c : List Nat) (a : Nat), c ≠ [] →
    (prefixSums a c).getLast? = some (a + c.sum) := by
  intro c
  induction c with
  | nil => intro a h; exact absurd rfl h
  | cons w ws ih =>
    intro a _
    by_cases hws : ws = []
    · subst hws; simp [prefixSums]
    · have hne : prefixSums (a + w) ws ≠ [] := by
        intro hEq
        apply hws
        have hlen := prefixSums_length ws (a + w)
        rw [hEq] at hlen
        exact List.length_eq_zero.mp hlen.symm
      simp only [prefixSums]
      cases hpp : prefixSums (a + w) ws with
      | nil => exact absurd hpp hne
      | cons q qs =>
        rw [List.getLast?_cons_cons, ← hpp, ih (a + w) hws]
        congr 1
        simp only [List.sum_cons]
        omega

/-- In a sorted list, values at increasing positions are non-decreasing. -/
theorem sorted_getD_mono {l : List ℚ} (hs : List.Sorted (· ≤ ·) l) {i j : Nat}
    (hij : i ≤ j) (hj : j < l.length) : l.getD i 0 ≤ l.getD j 0 := by
  have hi : i < l.length := lt_of_le_of_lt hij hj
  rw [List.getD_eq_getElem l 0 hi, List.getD_eq_getElem l 0 hj]
  rcases Nat.lt_or_eq_of_le hij with hlt | rfl
  · have := hs.rel_get_of_lt (a := ⟨i, hi⟩) (b := ⟨j, hj⟩) (Fin.mk_lt_mk.mpr hlt)
    simpa [List.get_eq_getElem] using this
  · exact le_refl _

/-- `headD` is `getD` at position `0`. -/
theorem headD_eq_getD_zero (l : List ℚ) : l.headD 0 = l.getD 0 0 := by
  cases l <;> rfl

/-- The breakpoints built from a sorted list and a composition of its length
are sorted, have one more entry than classes, and start and end at the
minimum and maximum of the underlying values. -/
theorem breaksOf_props {values s : List ℚ} {c : List Nat} {k : Nat}
    (hsorted : List.Sorted (· ≤ ·) s) (hperm : s.Perm values)
    (hclen : c.length = k) (hcsum : c.sum = s.length) (hcpos : ∀ w ∈ c, 1 ≤ w)
    (hk1 : 1 ≤ k) (hsne : s ≠ []) :
    List.Sorted (· ≤ ·) (breaksOf s c) ∧ (breaksOf s c).length = k + 1 ∧
    (∃ m, (breaksOf s c).head? = some m ∧ m ∈ values ∧ ∀ v ∈ values, m ≤ v) ∧
    (∃ M, (breaksOf s c).getLast? = some M ∧ M ∈ values ∧ ∀ v ∈ values, v ≤ M) := by
  have hslen1 : 1 ≤ s.length := by
    cases s with
    | nil => exact absurd rfl hsne
    | cons a l => simp
  have hbounds := prefixSums_mem_bounds c 0 hcpos
  have hlt := prefixSums_pairwise_lt c 0 hcpos
  have hmapPW : (List.map (fun p => s.getD (p - 1) 0) (prefixSums 0 c)).Pairwise (· ≤ ·) := by
    rw [List.pairwise_map]
    refine hlt.imp_of_mem ?_
    intro p q hp hq hpq
    obtain ⟨hq1, hq2⟩ := hbounds q hq
    exact sorted_getD_mono hsorted (by omega) (by omega)
  have hheadle : ∀ x ∈ List.map (fun p => s.getD (p - 1) 0) (prefixSums 0 c),
      s.headD 0 ≤ x := by
    intro x hx
    obtain ⟨p, hp, rfl⟩ := List.mem_map.mp hx
    obtain ⟨hp1, hp2⟩ := hbounds p hp
    rw [headD_eq_getD_zero]
    exact sorted_getD_mono hsorted (Nat.zero_le _) (by omega)
  refine ⟨?_, ?_, ?_, ?_⟩
  · exact List.sorted_cons.mpr ⟨hheadle, hmapPW⟩
  · simp [breaksOf, prefixSums_length, hclen]
  · refine ⟨s.getD 0 0, ?_, ?_, ?_⟩
    · simp only [breaksOf, List.head?_cons, headD_eq_getD_zero]
    · have hmem0 : s.getD 0 0 ∈ s := by
        rw [List.getD_eq_getElem s 0 (by omega)]
        exact List.getElem_mem _
      exact hperm.mem_iff.mp hmem0
    · intro v hv
      obtain ⟨i, hi, rfl⟩ := List.mem_iff_getElem.mp (hperm.symm.mem_iff.mp hv)
      rw [← List.getD_eq_getElem s 0 hi]
      exact sorted_getD_mono hsorted (Nat.zero_le _) hi
  · have hcne : c ≠ [] := by
      intro h0
      rw [h0] at hclen
      simp at hclen
      omega
    have hpsne : prefixSums 0 c ≠ [] := by
      intro h0
      apply hcne
      have := prefixSums_length c 0
      rw [h0] at this
      exact List.length_eq_zero.mp this.symm
    refine ⟨s.getD (s.length - 1) 0, ?_, ?_, ?_⟩
    · simp only [breaksOf]
      cases hmp : List.map (fun p => s.getD (p - 1) 0) (prefixSums 0 c) with
      | nil => exact absurd (List.map_eq_nil_iff.mp hmp) hpsne
      | cons b bt =>
        rw [List.getLast?_cons_cons, ← hmp, List.getLast?_map,
          prefixSums_getLast? c 0 hcne]
        simp [hcsum]
    · have hmemL : s.getD (s.length - 1) 0 ∈ s := by
        rw [List.getD_eq_getElem s 0 (by omega)]
        exact List.getElem_mem _
      exact hperm.mem_iff.mp hmemL
    · intro v hv
      obtain ⟨i, hi, rfl⟩ := List.mem_iff_getElem.mp (hperm.symm.mem_iff.mp hv)
      rw [← List.getD_eq_getElem s 0 hi]
      exact sorted_getD_mono hsorted (by omega) (by omega)

/-- A successful run of the breakpoint classifier returns a sorted list of
`k + 1` breakpoints whose first and last entries are the minimum and maximum
of the values. -/
theorem jenks_breaks_props {values : List ℚ} {k : Nat} {bs : List ℚ}
    (h : jenks_breaks values k = .ok bs) :
    List.Sorted (· ≤ ·) bs ∧ bs.length = k + 1 ∧
    (∃ m, bs.head? = some m ∧ m ∈ values ∧ ∀ v ∈ values, m ≤ v) ∧
    (∃ M, bs.getLast? = some M ∧ M ∈ values ∧ ∀ v ∈ values, v ≤ M) := by
  unfold jenks_breaks at h
  split at h
  · cases h
  next hcond =>
    push_neg at hcond
    obtain ⟨hk0, hdedup⟩ := hcond
    dsimp only at h
    split at h
    · cases h
    next c hpick =>
      obtain rfl : breaksOf (List.insertionSort (· ≤ ·) values) c = bs := by
        injection h
      have hk1 : 1 ≤ k := Nat.one_le_iff_ne_zero.mpr hk0
      have hvne : values ≠ [] := by
        intro hnil
        rw [hnil] at hdedup
        simp at hdedup
        omega
      have hcmem := pickMinBy_mem _ _ _ hpick
      obtain ⟨hclen, hcsum, hcpos⟩ := compositions_mem k _ c hcmem
      have hsorted : List.Sorted (· ≤ ·) (List.insertionSort (· ≤ ·) values) :=
        List.sorted_insertionSort _ values
      have hperm : (List.insertionSort (· ≤ ·) values).Perm values :=
        List.perm_insertionSort _ values
      have hsne : List.insertionSort (· ≤ ·) values ≠ [] := by
        intro h0
        apply hvne
        have := hperm.length_eq
        rw [h0] at this
        exact List.length_eq_zero.mp this.symm
      exact breaksOf_props hsorted hperm hclen hcsum hcpos hk1 hsne

/-- A fit loop that raises nothing appends exactly the remaining columns to
the accumulated dictionary, each mapped to a successful classification of its
values. -/
theorem fitLoop_ok (k : Nat) (X : DataFrame) :
    ∀ (fs : List String) (acc : List (String × List ℚ)),
      (JenksDiscretiser.fitLoop k X fs acc).2 = none →
      (JenksDiscretiser.fitLoop k X fs acc).1.map Prod.fst = acc.map Prod.fst ++ fs ∧
      ∀ p ∈ (JenksDiscretiser.fitLoop k X fs acc).1,
        p ∈ acc ∨ jenks_breaks (colValues X p.1) k = .ok p.2 := by
  intro fs
  induction fs with
  | nil =>
    intro acc _
    exact ⟨by simp [JenksDiscretiser.fitLoop], fun p hp => Or.inl (by
      simpa [JenksDiscretiser.fitLoop] using hp)⟩
  | cons f0 fs ih =>
    intro acc h
    cases hjb : jenks_breaks (colValues X f0) k with
    | error e => simp [JenksDiscretiser.fitLoop, hjb] at h
    | ok bs =>
      simp only [JenksDiscretiser.fitLoop, hjb] at h ⊢
      obtain ⟨h1, h2⟩ := ih (acc ++ [(f0, bs)]) h
      refine ⟨by rw [h1]; simp, ?_⟩
      intro p hp
      rcases h2 p hp with hmem | hok
      · rcases List.mem_append.mp hmem with hmem | hmem
        · exact Or.inl hmem
        · simp only [List.mem_singleton] at hmem
          subst hmem
          exact Or.inr hjb
      · exact Or.inr hok

/-- C3 (counterexample): fitting `[1,1,2,2,3,3]` with `bins=3` succeeds (three
distinct values suffice for three bins), but the stored breakpoints
`[1, 1, 2, 3]` are not strictly increasing: the claim's strictness fails for
columns with repeated values. -/
theorem C3_counterexample :
    (tBins3.fit dfTie none).2 = none ∧
    (tBins3.fit dfTie none).1.binner_dict_ = some [("a", [1, 1, 2, 3])] ∧
    ¬ List.Pairwise (· < ·) [(1 : ℚ), 1, 2, 3] :=
  ⟨rfl, rfl, by decide⟩

/-- C3 (amended): after every successful fit, `binner_dict_` maps exactly the
columns of `variables_`, in order, and each stored breakpoint sequence is
sorted (non-decreasing rather than strictly increasing), has length
`bins + 1`, and begins and ends with the column's observed minimum and
maximum. -/
theorem C3_fitted_state_invariants (t : JenksDiscretiser) (X : DataFrame)
    (y : Option (List ℚ)) (h : (t.fit X y).2 = none) :
    ∃ bd vars,
      (t.fit X y).1.binner_dict_ = some bd ∧
      (t.fit X y).1.variables_ = some vars ∧
      bd.map Prod.fst = vars ∧
      ∀ p ∈ bd,
        List.Sorted (· ≤ ·) p.2 ∧
        p.2.length = (intVal t.bins).toNat + 1 ∧
        (∃ m, p.2.head? = some m ∧ m ∈ colValues X p.1 ∧
          ∀ v ∈ colValues X p.1, m ≤ v) ∧
        (∃ M, p.2.getLast? = some M ∧ M ∈ colValues X p.1 ∧
          ∀ v ∈ colValues X p.1, v ≤ M) := by
  cases hres : JenksDiscretiser.resolveVariables t.variablesParam X with
  | error e => simp [JenksDiscretiser.fit, hres] at h
  | ok vars =>
    cases hna : X.containsNA vars with
    | true => simp [JenksDiscretiser.fit, hres, hna] at h
    | false =>
      simp only [JenksDiscretiser.fit, hres, hna, Bool.false_eq_true,
        if_false] at h ⊢
      obtain ⟨hmap, hmem⟩ := fitLoop_ok (intVal t.bins).toNat X vars [] h
      refine ⟨_, vars, rfl, rfl, by simpa using hmap, ?_⟩
      intro p hp
      rcases hmem p hp with h0 | hok
      · cases h0
      · exact jenks_breaks_props hok

/-- C3 (witness): the invariants applied to the successful fit of `dfTie`
with three bins. -/
theorem C3_fitted_state_invariants_witness :
    ∃ bd vars,
      (tBins3.fit dfTie none).1.binner_dict_ = some bd ∧
      (tBins3.fit dfTie none).1.variables_ = some vars ∧
      bd.map Prod.fst = vars ∧
      ∀ p ∈ bd,
        List.Sorted (· ≤ ·) p.2 ∧
        p.2.length = (intVal tBins3.bins).toNat + 1 ∧
        (∃ m, p.2.head? = some m ∧ m ∈ colValues dfTie p.1 ∧
          ∀ v ∈ colValues dfTie p.1, m ≤ v) ∧
        (∃ M, p.2.getLast? = some M ∧ M ∈ colValues dfTie p.1 ∧
          ∀ v ∈ colValues dfTie p.1, v ≤ M) :=
  C3_fitted_state_invariants tBins3 dfTie none rfl

/-- C10: because Python's `bool` is a subclass of `int`, `bins=True` and
`precision=True` pass the positive-integer checks and are stored as-is. -/
theorem C10_bool_bins_precision_accepted (ro rb : Bool) (vars : Option (List String)) :
    JenksDiscretiser.init (.bool true) vars (.bool ro) (.bool rb) (.bool true) =
      .ok ⟨.bool true, vars, .bool ro, .bool rb, .bool true, none, none⟩ := by
  unfold JenksDiscretiser.init
  rw [if_neg (by simp [isinstance_bool]), if_neg (by simp [isinstance_bool]),
    if_neg (by push_neg; exact ⟨by simp [isinstance_int], by simp [intVal]⟩),
    if_neg (by push_neg; exact ⟨by simp [isinstance_int], by simp [intVal]⟩)]

end FeatureEngine
